import Mathlib

/-!
# Verification of the component-cli archive construction and merge engine

This development embeds the descriptor data model and the operations of
`pkg/commands/componentarchive/resources/add.go` (`Options.Run`,
`generateResources`, `generateResourcesFromReader`) and
`pkg/commands/componentarchive/init.go` (`InitOptions.Run`) as executable
Lean definitions, and proves (or refutes) the specified properties about
them.

Conventions of the embedding:
* Strings model Go strings; an absent pointer field is `Option.none`.
* The vendored `component-spec` bindings (`cdv2`, `cdutils`,
  `cdvalidation`, `utils.AddRepositoryContext`) are not part of the
  visible source; where one of their functions decides a property it is
  modelled from the specification and marked `Modelled from the spec:` in
  its doc comment.
* Schema validation is consumed by the source as a black box
  (`cdvalidation.ValidateResource` / `cdvalidation.Validate`), so the
  embedded operations take the two validators as function parameters.
* File-system effects are recorded as an explicit trace of primitive
  operations (`FsOp`), one event per `vfs.WriteFile` / `MkdirAll` call
  performed by the source; serialized descriptor file content is modelled
  by the descriptor value itself (`yaml.Marshal` is injective and total
  in this model).
-/

namespace ComponentCli

/-- The identity of a resource/source/reference: name, version, type and
the extra identity pairs.  Modelled from the spec: the identity model of
the vendored bindings is not in the visible source; per the specification
two entries are the same identity iff name, version, type and every
`extraIdentity` pair are equal.  `extraIdentity` is modelled as an
association list compared element-wise. -/
structure Identity where
  name : String
  version : String
  type : String
  extraIdentity : List (String × String)
deriving DecidableEq, Repr, Inhabited

/-- An access description (`cdv2.Resource.Access`): a typed reference to
externally hosted content, e.g. an OCI registry image reference. -/
structure Access where
  type : String
  ref : String
deriving DecidableEq, Repr, Inhabited

/-- A local blob input specification (`input.BlobInput`): path plus kind
(`file` or `dir`), optional compression flag and exclude pattern. -/
structure BlobInput where
  kind : String
  path : String
  compress : Bool
  exclude : String
deriving DecidableEq, Repr, Inhabited

/-- A resource entry of the descriptor (`cdv2.Resource`): identity
fields, labels, the relation (`local` or `external`) and an optional
access. -/
structure Resource where
  name : String
  version : String
  type : String
  extraIdentity : List (String × String)
  labels : List (String × String)
  relation : String
  access : Option Access
deriving DecidableEq, Repr, Inhabited

/-- The identity key of a resource (spec §4.1: never includes `relation`,
`access` or `input`). -/
def Resource.identity (r : Resource) : Identity :=
  ⟨r.name, r.version, r.type, r.extraIdentity⟩

/-- A source entry (`cdv2.Source`): identity fields only. -/
structure Source where
  name : String
  version : String
  type : String
  extraIdentity : List (String × String)
deriving DecidableEq, Repr, Inhabited

/-- A component reference entry (`cdv2.ComponentReference`). -/
structure ComponentReference where
  name : String
  version : String
  extraIdentity : List (String × String)
  componentName : String
deriving DecidableEq, Repr, Inhabited

/-- A repository context record (`cdv2.RepositoryContext`). -/
structure RepositoryContext where
  type : String
  baseURL : String
deriving DecidableEq, Repr, Inhabited

/-- The component descriptor (`cdv2.ComponentDescriptor`). -/
structure ComponentDescriptor where
  schemaVersion : String
  name : String
  version : String
  provider : String
  repositoryContexts : List RepositoryContext
  resources : List Resource
  sources : List Source
  componentReferences : List ComponentReference
deriving DecidableEq, Repr, Inhabited

/-- A decoded resource template (`ResourceOptions` in `add.go`): a
resource plus the optional `input` blob specification. -/
structure ResourceOptions where
  resource : Resource
  input : Option BlobInput
deriving DecidableEq, Repr, Inhabited

/-- Errors surfaced by the embedded add / init operations, mirroring the
`fmt.Errorf` sites of the source. -/
inductive AddError where
  /-- `add.go:220` — `"unable to decode resource: %w"`; wraps the
  underlying decoder's message. -/
  | malformedTemplate (msg : String)
  /-- `add.go:229` — both `input` and `access` set on the named
  resource. -/
  | conflictingResourceSource (name : String)
  /-- `add.go:187` — the resource template file could not be opened. -/
  | fileOpenFailed (path : String)
  /-- `add.go:139` / `add.go:144` — `cdvalidation.ValidateResource`
  rejected the (merged) entry. -/
  | resourceValidationFailed
  /-- `add.go:150` — `cdvalidation.Validate` rejected the whole
  descriptor. -/
  | descriptorValidationFailed
  /-- error from the blob path (`addInputBlob`, modelled abstractly). -/
  | blobError (msg : String)
deriving DecidableEq, Repr, Inhabited

deriving instance DecidableEq for Except

/-- A primitive file-system effect performed by the source; one event per
`vfs.WriteFile` / `MkdirAll` call.  `rename` is included so the atomicity
property of persistence can be stated: the source would have to emit it
for a write-to-temp-then-rename persist, and never does. -/
inductive FsOp where
  | writeFile (path : String) (content : ComponentDescriptor)
  | mkdirAll (path : String)
  | rename (src : String) (dst : String)
deriving DecidableEq, Repr, Inhabited

/-- `ctf.ComponentDescriptorFileName` joined to the archive path
(`filepath.Join(o.ComponentArchivePath, ctf.ComponentDescriptorFileName)`). -/
def descriptorFilePath (archivePath : String) : String :=
  archivePath ++ "/component-descriptor.yaml"

/-- Store content under a path in a path → content association list,
overwriting the first binding of that path if present. -/
def setFile (files : List (String × ComponentDescriptor)) (p : String)
    (c : ComponentDescriptor) : List (String × ComponentDescriptor) :=
  match files with
  | [] => [(p, c)]
  | (q, d) :: rest => if q = p then (p, c) :: rest else (q, d) :: setFile rest p c

/-- Replay one file-system operation over a path → content map
(association list), to read off the persisted descriptor state. -/
def applyFsOp (files : List (String × ComponentDescriptor)) :
    FsOp → List (String × ComponentDescriptor)
  | .writeFile p c => setFile files p c
  | .mkdirAll _ => files
  | .rename src dst =>
      match files.lookup src with
      | none => files
      | some c => setFile (files.filter (fun e => e.1 ≠ src)) dst c

/-- Replay a whole trace. -/
def replayFs (files : List (String × ComponentDescriptor)) (ops : List FsOp) :
    List (String × ComponentDescriptor) :=
  ops.foldl applyFsOp files

/-- Modelled from the spec: `cdutils.MergeResources` of the vendored
bindings (spec §4.3): the result keeps the incoming entry's Identity;
every other field is taken from the incoming entry if non-empty/non-nil,
else from the existing entry. -/
def mergeResources (existing incoming : Resource) : Resource :=
  { name := incoming.name
    version := incoming.version
    type := incoming.type
    extraIdentity := incoming.extraIdentity
    labels := if incoming.labels ≠ [] then incoming.labels else existing.labels
    relation := if incoming.relation ≠ "" then incoming.relation else existing.relation
    access :=
      match incoming.access with
      | some a => some a
      | none => existing.access }

/-- The found/not-found merge step of `Options.Run` (`add.go:135-147`)
on the resource collection, with `cdv2.GetResourceIndex` (modelled from
the spec: scan for the first entry with the same identity) inlined as a
structural scan: at the first entry whose identity equals the incoming
entry's identity, the merged entry (validated first, `add.go:138`)
replaces the existing one in place; if no entry matches, the incoming
entry (validated, `add.go:143`) is appended at the end.  `vr` is the
black-box `cdvalidation.ValidateResource`. -/
def upsertResource (vr : Resource → Bool) :
    List Resource → Resource → Except AddError (List Resource)
  | [], r => if vr r then .ok [r] else .error .resourceValidationFailed
  | cur :: rest, r =>
      if cur.identity = r.identity then
        let merged := mergeResources cur r
        if vr merged then .ok (merged :: rest) else .error .resourceValidationFailed
      else
        match upsertResource vr rest r with
        | .ok rest' => .ok (cur :: rest')
        | .error e => .error e

/-- One document of a multi-document input stream, as seen after the
underlying `yamlutil.NewYAMLOrJSONDecoder` has attempted to decode it:
either it is malformed (with the underlying decoder's error message,
which describes the document's own syntax) or it decoded into a
`ResourceOptions` template. -/
inductive Doc where
  | malformed (msg : String)
  | tmpl (r : ResourceOptions)
deriving DecidableEq, Repr, Inhabited

/-- The default-fill step of `generateResourcesFromReader`
(`add.go:223-226`): if the relation is `local` (`cdv2.LocalRelation`) and
the version is empty, the version is set to the owning descriptor's
version. -/
def defaultFill (cd : ComponentDescriptor) (r : ResourceOptions) : ResourceOptions :=
  if r.resource.relation = "local" ∧ r.resource.version = "" then
    { r with resource := { r.resource with version := cd.version } }
  else r

/-- `generateResourcesFromReader` (`add.go:211-235`): decode documents in
stream order; end of stream terminates the loop cleanly with the
accumulated templates; a malformed document aborts with a decode error
wrapping the underlying message; each decoded template is default-filled,
then rejected if both `input` and `access` are set, else accumulated. -/
def generateResourcesFromReader (cd : ComponentDescriptor) :
    List Doc → Except AddError (List ResourceOptions)
  | [] => .ok []
  | .malformed msg :: _ => .error (.malformedTemplate msg)
  | .tmpl r :: rest =>
      let r := defaultFill cd r
      if r.input.isSome ∧ r.resource.access.isSome then
        .error (.conflictingResourceSource r.resource.name)
      else
        match generateResourcesFromReader cd rest with
        | .ok rs => .ok (r :: rs)
        | .error e => .error e

/-- The state of standard input as observed by `os.Stdin.Stat()` in
`generateResources` (`add.go:196-200`): whether the mode has the named
pipe bit, and the reported size in bytes. -/
structure StdinInfo where
  isNamedPipe : Bool
  size : Nat
deriving DecidableEq, Repr, Inhabited

/-- `Options.generateResources` (`add.go:182-208`): when a resource
template file path is set, open it (`fileDocs = none` models an open
failure) and decode its documents first; then, when stdin is a named pipe
or has non-zero size, decode the piped documents and append them after
the file's. -/
def generateResources (cd : ComponentDescriptor) (resourceObjectPath : String)
    (fileDocs : Option (List Doc)) (stdin : StdinInfo) (stdinDocs : List Doc) :
    Except AddError (List ResourceOptions) :=
  let fileStep : Except AddError (List ResourceOptions) :=
    if resourceObjectPath ≠ "" then
      match fileDocs with
      | none => .error (.fileOpenFailed resourceObjectPath)
      | some docs => generateResourcesFromReader cd docs
    else .ok []
  match fileStep with
  | .error e => .error e
  | .ok resources =>
      if stdin.isNamedPipe ∨ stdin.size ≠ 0 then
        match generateResourcesFromReader cd stdinDocs with
        | .error e => .error e
        | .ok stdinResources => .ok (resources ++ stdinResources)
      else .ok resources

/-- The in-process state of `Options.Run`: the in-memory descriptor plus
the trace of file-system operations performed so far. -/
structure RunState where
  cd : ComponentDescriptor
  trace : List FsOp
deriving DecidableEq, Repr, Inhabited

/-- The per-resource loop of `Options.Run` (`add.go:128-162`).  For each
template: the blob branch (`add.go:129-133`, `addInputBlob`, modelled
abstractly by the `blobAdd` parameter since the blob resolver and
archive blob store are outside the visible source) or the merge branch
(`upsertResource`); then the whole descriptor is validated
(`add.go:150`, black box `vd`), marshalled and written to the descriptor
file (`add.go:154-160`).  An error returns immediately, carrying the
state (and hence the persisted trace) at that moment. -/
def runResources (blobAdd : ComponentDescriptor → ResourceOptions → Except AddError ComponentDescriptor)
    (vr : Resource → Bool) (vd : ComponentDescriptor → Bool) (descPath : String) :
    RunState → List ResourceOptions → Except (AddError × RunState) RunState
  | st, [] => .ok st
  | st, r :: rest =>
      let step : Except AddError ComponentDescriptor :=
        match r.input with
        | some _ => blobAdd st.cd r
        | none =>
            match upsertResource vr st.cd.resources r.resource with
            | .ok resources' => .ok { st.cd with resources := resources' }
            | .error e => .error e
      match step with
      | .error e => .error (e, st)
      | .ok cd' =>
          if vd cd' then
            runResources blobAdd vr vd descPath
              { cd := cd', trace := st.trace ++ [.writeFile descPath cd'] } rest
          else .error (.descriptorValidationFailed, { st with cd := cd' })

/-- `Options.Run` (`add.go:115-165`) after the archive has been loaded:
`generateResources` decodes all documents up front; a decode error aborts
the run before anything is merged or written; otherwise the per-resource
loop merges, validates and persists once per template. -/
def optionsRun (blobAdd : ComponentDescriptor → ResourceOptions → Except AddError ComponentDescriptor)
    (vr : Resource → Bool) (vd : ComponentDescriptor → Bool)
    (archivePath : String) (cd0 : ComponentDescriptor) (resourceObjectPath : String)
    (fileDocs : Option (List Doc)) (stdin : StdinInfo) (stdinDocs : List Doc) :
    Except (AddError × RunState) RunState :=
  match generateResources cd0 resourceObjectPath fileDocs stdin stdinDocs with
  | .error e => .error (e, { cd := cd0, trace := [] })
  | .ok resources =>
      runResources blobAdd vr vd (descriptorFilePath archivePath)
        { cd := cd0, trace := [] } resources

/-- The options of the `init` command (`InitOptions`, `init.go:27-33`). -/
structure InitOptions where
  componentArchivePath : String
  componentName : String
  componentVersion : String
  ociRegistryURLs : List String
deriving DecidableEq, Repr, Inhabited

/-- Modelled from the spec: `utils.AddRepositoryContext` (spec §4.6) of
code outside the visible source: append the `{type, baseURL}` record
unless an identical entry already exists; order of existing entries is
preserved, new entries append at the end. -/
def addRepositoryContext (ctxs : List RepositoryContext) (t url : String) :
    List RepositoryContext :=
  if ctxs.any (fun c => c = ⟨t, url⟩) then ctxs else ctxs ++ [⟨t, url⟩]

/-- The descriptor built by `InitOptions.Run` (`init.go:77-94`): metadata
version `v2`, the given name and version, provider `internal`
(`cdv2.InternalProvider`), one `ociRegistry` repository context per given
URL (added via `addRepositoryContext`), and — after
`cdv2.DefaultComponent`, which fills nil collections with empty ones (as
asserted by the repository's init test) — empty resource, source and
reference collections. -/
def initialDescriptor (o : InitOptions) : ComponentDescriptor :=
  { schemaVersion := "v2"
    name := o.componentName
    version := o.componentVersion
    provider := "internal"
    repositoryContexts :=
      o.ociRegistryURLs.foldl (fun cs url => addRepositoryContext cs "ociRegistry" url) []
    resources := []
    sources := []
    componentReferences := [] }

/-- The result of `fs.Stat` on the archive path in `InitOptions.Run`
(`init.go:64-73`). -/
inductive PathStat where
  | absent
  | dir
  | nonDir
deriving DecidableEq, Repr, Inhabited

/-- The file system as seen by the embedded `init`: the stat of the
archive path and the path → content map of descriptor files. -/
structure InitFs where
  stat : PathStat
  files : List (String × ComponentDescriptor)
deriving DecidableEq, Repr, Inhabited

/-- Errors of the embedded `InitOptions.Run`. -/
inductive InitError where
  /-- `init.go:72` — the archive path exists and is not a directory. -/
  | notADirectory (path : String)
  /-- `init.go:96` — `cdvalidation.Validate` rejected the descriptor. -/
  | validationFailed
deriving DecidableEq, Repr, Inhabited

/-- `InitOptions.Run` (`init.go:63-112`): stat the archive path; create
the directory when absent; fail when it exists as a non-directory; build
the initial descriptor, validate it (black box `vd`), marshal it and
write it to the descriptor file path — overwriting whatever file is
there (the source contains no check for an existing descriptor).
Returns the resulting file system and the trace of file-system
operations performed. -/
def initRun (vd : ComponentDescriptor → Bool) (o : InitOptions) (fs : InitFs) :
    Except InitError (InitFs × List FsOp) :=
  let statStep : Except InitError (InitFs × List FsOp) :=
    match fs.stat with
    | .absent => .ok ({ fs with stat := .dir }, [.mkdirAll o.componentArchivePath])
    | .nonDir => .error (.notADirectory o.componentArchivePath)
    | .dir => .ok (fs, [])
  match statStep with
  | .error e => .error e
  | .ok (fs, ops) =>
      let cd := initialDescriptor o
      if vd cd then
        let descPath := descriptorFilePath o.componentArchivePath
        .ok ({ fs with files := setFile fs.files descPath cd },
          ops ++ [.writeFile descPath cd])
      else .error .validationFailed

/-- Iterated merge: the merge branch of `Options.Run` applied to each
incoming entry in turn (the loop of `add.go:128-148` restricted to
templates without blob input). -/
def upsertAll (vr : Resource → Bool) :
    List Resource → List Resource → Except AddError (List Resource)
  | resources, [] => .ok resources
  | resources, r :: rest =>
      match upsertResource vr resources r with
      | .ok resources' => upsertAll vr resources' rest
      | .error e => .error e

/-- The §3 invariant: no two entries of the collection share an
identity. -/
def IdentityUnique (rs : List Resource) : Prop :=
  rs.Pairwise (fun a b => a.identity ≠ b.identity)

instance (rs : List Resource) : Decidable (IdentityUnique rs) := by
  unfold IdentityUnique; infer_instance

/-- A document the decoder accepts: a well-formed template that (after
default-filling) does not set both `input` and `access`. -/
def cleanDoc (cd : ComponentDescriptor) : Doc → Bool
  | .malformed _ => false
  | .tmpl r =>
      !((defaultFill cd r).input.isSome && (defaultFill cd r).resource.access.isSome)

/-- Validators and fixtures used by witnesses and counterexamples. -/
def vTrue : Resource → Bool := fun _ => true

def vdTrue : ComponentDescriptor → Bool := fun _ => true

def blobAddEx : ComponentDescriptor → ResourceOptions → Except AddError ComponentDescriptor :=
  fun cd _ => .ok cd

/-- The example resource of spec §8. -/
def resEx : Resource :=
  { name := "myimage", version := "0.2.0", type := "ociImage", extraIdentity := [],
    labels := [], relation := "external",
    access := some ⟨"ociRegistry", "example.registry/img:0.2.0"⟩ }

/-- Same identity as `resEx`, different non-identity fields. -/
def resInc : Resource :=
  { resEx with
    labels := [("k", "v")]
    access := some ⟨"ociRegistry", "example.registry/img:0.2.0-patched"⟩ }

/-- An identity disjoint from `resEx`/`resInc`. -/
def resOther : Resource :=
  { name := "other", version := "1.0.0", type := "json", extraIdentity := [],
    labels := [], relation := "external", access := none }

/-- An example initial descriptor with empty collections. -/
def cdEx : ComponentDescriptor :=
  { schemaVersion := "v2", name := "example.com/comp", version := "0.1.0",
    provider := "internal", repositoryContexts := [], resources := [],
    sources := [], componentReferences := [] }

/-- A valid template document (access only, no input). -/
def tmplEx : ResourceOptions := ⟨resEx, none⟩

/-- A template that sets both `access` and `input`. -/
def conflictEx : ResourceOptions :=
  ⟨{ resOther with access := some ⟨"ociRegistry", "x"⟩ }, some ⟨"file", "p", false, ""⟩⟩

/-- A `relation: local` template without a version. -/
def localTmpl : ResourceOptions :=
  ⟨{ name := "myconfig", version := "", type := "json", extraIdentity := [],
     labels := [], relation := "local", access := none }, none⟩

/-- The descriptor produced by merging `localTmpl` (default-filled) into
`cdEx`. -/
def cdExLocal : ComponentDescriptor :=
  { cdEx with resources := [{ localTmpl.resource with version := cdEx.version }] }

/-- The persistence discipline asserted by the specification for every
persist of the descriptor: the new content is never written directly to
the descriptor file; instead it is written to a temporary location and
then renamed over the descriptor file. -/
def TempRenamePersist (descPath : String) (tr : List FsOp) : Prop :=
  (∀ op ∈ tr, ∀ c, op ≠ FsOp.writeFile descPath c) ∧
  (∃ op ∈ tr, ∃ src, op = FsOp.rename src descPath)

/-- `cdEx` after merging `tmplEx`. -/
def cdEx1 : ComponentDescriptor := { cdEx with resources := [resEx] }

/-- A template whose entry the example validator rejects. -/
def badTmpl : ResourceOptions := ⟨{ resOther with name := "bad" }, none⟩

/-- An example per-resource validator that rejects entries named
`bad`. -/
def vrNotBad : Resource → Bool := fun r => !(r.name == "bad")

/-- Example init options. -/
def oEx : InitOptions := ⟨"arch", "component-name", "1.0.0", ["my.oci.registry"]⟩

theorem mergeResources_identity (ex inc : Resource) :
    (mergeResources ex inc).identity = inc.identity := rfl

theorem mergeResources_self (r : Resource) : mergeResources r r = r := by
  cases r with
  | mk n v t e l rel acc => cases acc <;> simp [mergeResources]

theorem mergeResources_merge_self (a b : Resource) :
    mergeResources (mergeResources a b) b = mergeResources a b := by
  cases hacc : b.access <;> simp [mergeResources, hacc] <;> split_ifs <;> simp_all

/-- Every member of a successful merge result is either an original
member of the collection or carries the incoming entry's identity. -/
theorem upsertResource_mem (vr : Resource → Bool) :
    ∀ (rs rs' : List Resource) (r : Resource), upsertResource vr rs r = .ok rs' →
      ∀ b ∈ rs', b ∈ rs ∨ b.identity = r.identity := by
  intro rs
  induction rs with
  | nil =>
      intro rs' r h b hb
      simp only [upsertResource] at h
      split at h
      · cases h
        rcases List.mem_singleton.mp hb with rfl
        exact Or.inr rfl
      · cases h
  | cons cur rest ih =>
      intro rs' r h b hb
      simp only [upsertResource] at h
      split at h
      case isTrue heq =>
        split at h
        · cases h
          rcases List.mem_cons.mp hb with rfl | hmem
          · exact Or.inr (mergeResources_identity cur r)
          · exact Or.inl (List.mem_cons_of_mem _ hmem)
        · cases h
      case isFalse hne =>
        cases hrec : upsertResource vr rest r with
        | ok rest' =>
            rw [hrec] at h
            cases h
            rcases List.mem_cons.mp hb with rfl | hmem
            · exact Or.inl (List.mem_cons_self _ _)
            · rcases ih rest' r hrec b hmem with hl | hr
              · exact Or.inl (List.mem_cons_of_mem _ hl)
              · exact Or.inr hr
        | error e => rw [hrec] at h; cases h

/-- A single merge step preserves identity uniqueness. -/
theorem upsertResource_unique (vr : Resource → Bool) :
    ∀ (rs rs' : List Resource) (r : Resource), IdentityUnique rs →
      upsertResource vr rs r = .ok rs' → IdentityUnique rs' := by
  intro rs
  induction rs with
  | nil =>
      intro rs' r _ h
      simp only [upsertResource] at h
      split at h
      · cases h; exact List.pairwise_singleton _ _
      · cases h
  | cons cur rest ih =>
      intro rs' r hu h
      rw [IdentityUnique, List.pairwise_cons] at hu
      simp only [upsertResource] at h
      split at h
      case isTrue heq =>
        split at h
        · cases h
          rw [IdentityUnique, List.pairwise_cons]
          refine ⟨fun b hb => ?_, hu.2⟩
          rw [mergeResources_identity, ← heq]
          exact hu.1 b hb
        · cases h
      case isFalse hne =>
        cases hrec : upsertResource vr rest r with
        | ok rest' =>
            rw [hrec] at h
            cases h
            rw [IdentityUnique, List.pairwise_cons]
            refine ⟨fun b hb => ?_, ih rest' r hu.2 hrec⟩
            rcases upsertResource_mem vr rest rest' r hrec b hb with hmem | hid
            · exact hu.1 b hmem
            · rw [hid]; exact hne
        | error e => rw [hrec] at h; cases h

/-- **C3** — For every descriptor whose resource collection contains no
two entries with the same Identity (name, version, type, extraIdentity),
after any sequence of merges of incoming entries the collection still
contains no two entries sharing an Identity. -/
theorem C3_identity_uniqueness (vr : Resource → Bool) (incs : List Resource) :
    ∀ (rs rs' : List Resource), IdentityUnique rs →
      upsertAll vr rs incs = .ok rs' → IdentityUnique rs' := by
  induction incs with
  | nil =>
      intro rs rs' hu h
      simp only [upsertAll] at h
      cases h
      exact hu
  | cons r rest ih =>
      intro rs rs' hu h
      simp only [upsertAll] at h
      cases hrec : upsertResource vr rs r with
      | ok mid =>
          rw [hrec] at h
          exact ih mid rs' (upsertResource_unique vr rs mid r hu hrec) h
      | error e => rw [hrec] at h; cases h

/-- Witness for C3 at a concrete collection and incoming sequence. -/
theorem C3_witness :
    IdentityUnique
      [{ name := "a", version := "1", type := "t", extraIdentity := [],
         labels := [], relation := "external", access := none }] ∧
    IdentityUnique
      [{ name := "a", version := "1", type := "t", extraIdentity := [],
         labels := [], relation := "external",
         access := some ⟨"ociRegistry", "img"⟩ },
       { name := "b", version := "1", type := "t", extraIdentity := [],
         labels := [], relation := "external", access := none }] :=
  ⟨by decide,
   C3_identity_uniqueness (fun _ => true)
     [{ name := "a", version := "1", type := "t", extraIdentity := [],
        labels := [], relation := "external",
        access := some ⟨"ociRegistry", "img"⟩ },
      { name := "b", version := "1", type := "t", extraIdentity := [],
        labels := [], relation := "external", access := none }]
     [{ name := "a", version := "1", type := "t", extraIdentity := [],
        labels := [], relation := "external", access := none }]
     _ (by decide) (by rfl)⟩

/-- **C9** — For every collection and every template, merging the same
template twice in succession produces the same final collection as
merging it once (the merge operation is idempotent for a fixed incoming
template). -/
theorem C9_merge_idempotent (vr : Resource → Bool) :
    ∀ (rs rs' : List Resource) (r : Resource),
      upsertResource vr rs r = .ok rs' → upsertResource vr rs' r = .ok rs' := by
  intro rs
  induction rs with
  | nil =>
      intro rs' r h
      simp only [upsertResource] at h
      split at h
      case isTrue hv => cases h; simp [upsertResource, mergeResources_self, hv]
      case isFalse => cases h
  | cons cur rest ih =>
      intro rs' r h
      simp only [upsertResource] at h
      split at h
      case isTrue heq =>
        split at h
        case isTrue hv =>
          cases h
          simp [upsertResource, mergeResources_identity, mergeResources_merge_self, hv]
        case isFalse => cases h
      case isFalse hne =>
        cases hrec : upsertResource vr rest r with
        | ok rest' =>
            rw [hrec] at h
            cases h
            simp only [upsertResource]
            rw [if_neg hne, ih rest' r hrec]
        | error e => rw [hrec] at h; cases h

/-- Witness for C9: merging `resInc` into `[resEx]` twice equals merging
it once. -/
theorem C9_witness :
    upsertResource vTrue [resEx] resInc = .ok [mergeResources resEx resInc] ∧
    upsertResource vTrue [mergeResources resEx resInc] resInc =
      .ok [mergeResources resEx resInc] :=
  ⟨by decide,
   C9_merge_idempotent vTrue [resEx] [mergeResources resEx resInc] resInc (by decide)⟩

/-- When no entry matches the incoming identity, the incoming entry is
appended unchanged at the end. -/
theorem upsertResource_append (vr : Resource → Bool) :
    ∀ (rs : List Resource) (r : Resource), (∀ b ∈ rs, b.identity ≠ r.identity) →
      vr r = true → upsertResource vr rs r = .ok (rs ++ [r]) := by
  intro rs
  induction rs with
  | nil => intro r _ hv; simp [upsertResource, hv]
  | cons cur rest ih =>
      intro r h hv
      have hne : cur.identity ≠ r.identity := h cur (List.mem_cons_self _ _)
      simp only [upsertResource]
      rw [if_neg hne, ih r (fun b hb => h b (List.mem_cons_of_mem _ hb)) hv]
      rfl

/-- When the first matching entry sits at position `i`, the merged entry
replaces it in place. -/
theorem upsertResource_replace (vr : Resource → Bool) :
    ∀ (rs : List Resource) (i : Nat) (ex r : Resource), rs.get? i = some ex →
      ex.identity = r.identity →
      (∀ j, j < i → ∀ b, rs.get? j = some b → b.identity ≠ r.identity) →
      vr (mergeResources ex r) = true →
      upsertResource vr rs r = .ok (rs.set i (mergeResources ex r)) := by
  intro rs
  induction rs with
  | nil => intro i ex r hget; simp at hget
  | cons cur rest ih =>
      intro i ex r hget heq hfirst hv
      cases i with
      | zero =>
          injection hget with hex
          subst hex
          simp only [upsertResource]
          rw [if_pos heq, if_pos hv]
          rfl
      | succ n =>
          have hne : cur.identity ≠ r.identity := hfirst 0 (Nat.succ_pos n) cur rfl
          simp only [upsertResource]
          rw [if_neg hne,
            ih n ex r hget heq (fun j hj b hb => hfirst (j + 1) (Nat.succ_lt_succ hj) b hb) hv]
          rfl

/-- **C4** — For every collection and incoming entry: if no existing
entry has the same Identity, the incoming entry is appended unchanged at
the end; if an entry with the same Identity exists at position `i`, the
entry at position `i` is replaced in place by the field-wise merge (each
non-Identity field taken from the incoming entry when non-empty/non-nil,
else from the existing entry) and the order of all other entries in the
collection is preserved. -/
theorem C4_upsert_position_and_fields (vr : Resource → Bool)
    (rs : List Resource) (r : Resource) :
    ((∀ b ∈ rs, b.identity ≠ r.identity) → vr r = true →
        upsertResource vr rs r = .ok (rs ++ [r])) ∧
    (∀ (i : Nat) (ex : Resource), rs.get? i = some ex →
        ex.identity = r.identity →
        (∀ j, j < i → ∀ b, rs.get? j = some b → b.identity ≠ r.identity) →
        vr (mergeResources ex r) = true →
        upsertResource vr rs r = .ok (rs.set i (mergeResources ex r))) ∧
    (∀ ex : Resource,
        (mergeResources ex r).identity = r.identity ∧
        (mergeResources ex r).relation =
          (if r.relation ≠ "" then r.relation else ex.relation) ∧
        (mergeResources ex r).labels =
          (if r.labels ≠ [] then r.labels else ex.labels) ∧
        (mergeResources ex r).access =
          (match r.access with | some a => some a | none => ex.access)) :=
  ⟨fun h hv => upsertResource_append vr rs r h hv,
   fun i ex hget heq hfirst hv => upsertResource_replace vr rs i ex r hget heq hfirst hv,
   fun _ => ⟨rfl, rfl, rfl, rfl⟩⟩

/-- Witness for C4: replace-in-place at position 1 of a two-entry
collection, and append on a collection with no match. -/
theorem C4_witness :
    upsertResource vTrue [resOther, resEx] resInc =
      .ok ([resOther, resEx].set 1 (mergeResources resEx resInc)) ∧
    upsertResource vTrue [resOther] resInc = .ok ([resOther] ++ [resInc]) :=
  ⟨(C4_upsert_position_and_fields vTrue [resOther, resEx] resInc).2.1 1 resEx rfl (by decide)
      (by
        intro j hj b hb
        have hj0 : j = 0 := Nat.lt_one_iff.mp hj
        subst hj0
        injection hb with hb
        subst hb
        decide)
      rfl,
   (C4_upsert_position_and_fields vTrue [resOther] resInc).1 (by decide) rfl⟩

/-! ## Decoder lemmas -/

theorem defaultFill_input (cd : ComponentDescriptor) (r : ResourceOptions) :
    (defaultFill cd r).input = r.input := by
  unfold defaultFill; split <;> rfl

theorem defaultFill_access (cd : ComponentDescriptor) (r : ResourceOptions) :
    (defaultFill cd r).resource.access = r.resource.access := by
  unfold defaultFill; split <;> rfl

theorem defaultFill_name (cd : ComponentDescriptor) (r : ResourceOptions) :
    (defaultFill cd r).resource.name = r.resource.name := by
  unfold defaultFill; split <;> rfl

theorem defaultFill_local_version (cd : ComponentDescriptor) (r : ResourceOptions)
    (hrel : r.resource.relation = "local") (hver : r.resource.version = "") :
    (defaultFill cd r).resource.version = cd.version := by
  unfold defaultFill
  rw [if_pos ⟨hrel, hver⟩]

theorem cleanDoc_not_conflicting (cd : ComponentDescriptor) (t : ResourceOptions)
    (hc : cleanDoc cd (.tmpl t) = true) :
    ¬((defaultFill cd t).input.isSome = true ∧
      (defaultFill cd t).resource.access.isSome = true) := by
  intro hboth
  simp [cleanDoc, hboth.1, hboth.2] at hc

/-- A stream of accepted documents decodes to one default-filled template
per document, in stream order. -/
theorem decode_templates (cd : ComponentDescriptor) :
    ∀ ts : List ResourceOptions, (∀ t ∈ ts, cleanDoc cd (.tmpl t) = true) →
      generateResourcesFromReader cd (ts.map Doc.tmpl) = .ok (ts.map (defaultFill cd)) := by
  intro ts
  induction ts with
  | nil => intro _; rfl
  | cons t ts ih =>
      intro h
      have hnc := cleanDoc_not_conflicting cd t (h t (List.mem_cons_self _ _))
      simp only [List.map, generateResourcesFromReader]
      rw [if_neg hnc, ih (fun b hb => h b (List.mem_cons_of_mem _ hb))]

/-- Decoding stops at the first malformed document: the result is the
same decode error whatever documents follow it. -/
theorem decode_stops_at_malformed (cd : ComponentDescriptor) :
    ∀ (pre : List Doc) (msg : String) (suf : List Doc),
      (∀ d ∈ pre, cleanDoc cd d = true) →
      generateResourcesFromReader cd (pre ++ Doc.malformed msg :: suf) =
        .error (.malformedTemplate msg) := by
  intro pre
  induction pre with
  | nil => intro msg suf _; rfl
  | cons d pre ih =>
      intro msg suf h
      have hc := h d (List.mem_cons_self _ _)
      cases d with
      | malformed m => simp [cleanDoc] at hc
      | tmpl t =>
          have hnc := cleanDoc_not_conflicting cd t hc
          simp only [List.cons_append, generateResourcesFromReader]
          rw [if_neg hnc, List.append_eq,
            ih msg suf (fun b hb => h b (List.mem_cons_of_mem _ hb))]

/-- Decoding stops at the first template that sets both `input` and
`access`, with the conflict error naming that resource. -/
theorem decode_stops_at_conflict (cd : ComponentDescriptor) :
    ∀ (pre : List Doc) (r : ResourceOptions) (suf : List Doc),
      (∀ d ∈ pre, cleanDoc cd d = true) →
      r.input.isSome = true → r.resource.access.isSome = true →
      generateResourcesFromReader cd (pre ++ Doc.tmpl r :: suf) =
        .error (.conflictingResourceSource r.resource.name) := by
  intro pre
  induction pre with
  | nil =>
      intro r suf _ hin hacc
      simp only [List.nil_append, generateResourcesFromReader]
      rw [if_pos ⟨by rw [defaultFill_input]; exact hin,
        by rw [defaultFill_access]; exact hacc⟩, defaultFill_name]
  | cons d pre ih =>
      intro r suf h hin hacc
      have hc := h d (List.mem_cons_self _ _)
      cases d with
      | malformed m => simp [cleanDoc] at hc
      | tmpl t =>
          have hnc := cleanDoc_not_conflicting cd t hc
          simp only [List.cons_append, generateResourcesFromReader]
          rw [if_neg hnc, List.append_eq,
            ih r suf (fun b hb => h b (List.mem_cons_of_mem _ hb)) hin hacc]

/-- With a template file and no piped input, only the file's documents
are processed. -/
theorem generateResources_file_only (cd : ComponentDescriptor) (path : String)
    (docs : List Doc) (hpath : path ≠ "") :
    generateResources cd path (some docs) ⟨false, 0⟩ [] =
      generateResourcesFromReader cd docs := by
  simp only [generateResources]
  rw [if_pos hpath]
  cases h : generateResourcesFromReader cd docs <;> simp

/-- A successful merge result contains an entry with the incoming entry's
identity. -/
theorem upsertResource_result_mem (vr : Resource → Bool) :
    ∀ (rs rs' : List Resource) (r : Resource), upsertResource vr rs r = .ok rs' →
      ∃ m ∈ rs', m.identity = r.identity := by
  intro rs
  induction rs with
  | nil =>
      intro rs' r h
      simp only [upsertResource] at h
      split at h
      · cases h; exact ⟨r, List.mem_singleton_self r, rfl⟩
      · cases h
  | cons cur rest ih =>
      intro rs' r h
      simp only [upsertResource] at h
      split at h
      case isTrue heq =>
        split at h
        · cases h
          exact ⟨mergeResources cur r, List.mem_cons_self _ _, mergeResources_identity cur r⟩
        · cases h
      case isFalse hne =>
        cases hrec : upsertResource vr rest r with
        | ok rest' =>
            rw [hrec] at h
            cases h
            obtain ⟨m, hm, hid⟩ := ih rest' r hrec
            exact ⟨m, List.mem_cons_of_mem _ hm, hid⟩
        | error e => rw [hrec] at h; cases h

/-- **C5** — For every decoded Resource template with relation equal to
local and an empty version field, the version field is set to the owning
component descriptor's version before the merge, so after the operation
the stored entry's version equals the descriptor's version. -/
theorem C5_local_default_fill
    (blobAdd : ComponentDescriptor → ResourceOptions → Except AddError ComponentDescriptor)
    (vr : Resource → Bool) (vd : ComponentDescriptor → Bool)
    (archivePath : String) (cd0 : ComponentDescriptor) (path : String)
    (r : ResourceOptions) (st' : RunState)
    (hpath : path ≠ "") (hrel : r.resource.relation = "local")
    (hver : r.resource.version = "") (hinput : r.input = none)
    (hrun : optionsRun blobAdd vr vd archivePath cd0 path (some [Doc.tmpl r])
        ⟨false, 0⟩ [] = .ok st') :
    ∃ m ∈ st'.cd.resources, m.name = r.resource.name ∧ m.version = cd0.version := by
  have hclean : cleanDoc cd0 (Doc.tmpl r) = true := by
    simp [cleanDoc, defaultFill_input, hinput]
  have hdec : generateResourcesFromReader cd0 [Doc.tmpl r] = .ok [defaultFill cd0 r] := by
    have h := decode_templates cd0 [r]
      (fun t ht => by rcases List.mem_singleton.mp ht with rfl; exact hclean)
    simpa using h
  unfold optionsRun at hrun
  rw [generateResources_file_only cd0 path [Doc.tmpl r] hpath, hdec] at hrun
  simp only [runResources] at hrun
  rw [show (defaultFill cd0 r).input = none from by
    rw [defaultFill_input]; exact hinput] at hrun
  cases hup : upsertResource vr cd0.resources (defaultFill cd0 r).resource with
  | error e => simp only [hup] at hrun; simp at hrun
  | ok rs' =>
      simp only [hup] at hrun
      split at hrun
      · cases hrun
        obtain ⟨m, hm, hid⟩ := upsertResource_result_mem vr cd0.resources rs'
          (defaultFill cd0 r).resource hup
        refine ⟨m, hm, ?_, ?_⟩
        · have hn := congrArg Identity.name hid
          simpa [Resource.identity, defaultFill_name] using hn
        · have hv := congrArg Identity.version hid
          rw [show ((defaultFill cd0 r).resource.identity).version = cd0.version from by
            rw [Resource.identity]
            exact defaultFill_local_version cd0 r hrel hver] at hv
          exact hv
      · simp at hrun

/-- Witness for C5 at a concrete local template without a version. -/
theorem C5_witness :
    ∃ m ∈ (RunState.mk cdExLocal
        [FsOp.writeFile (descriptorFilePath "arch") cdExLocal]).cd.resources,
      m.name = localTmpl.resource.name ∧ m.version = cdEx.version :=
  C5_local_default_fill blobAddEx vTrue vdTrue "arch" cdEx "r.yaml" localTmpl
    (RunState.mk cdExLocal [FsOp.writeFile (descriptorFilePath "arch") cdExLocal])
    (by decide) rfl rfl rfl (by decide)

/-- **C6** — For every Resource entry that has both `access` and `input`
set, the operation fails with a conflicting-resource error (the entry is
rejected, never silently resolved in favour of one of the two fields, and
nothing from that input is merged). -/
theorem C6_conflicting_resource_rejected
    (blobAdd : ComponentDescriptor → ResourceOptions → Except AddError ComponentDescriptor)
    (vr : Resource → Bool) (vd : ComponentDescriptor → Bool)
    (archivePath : String) (cd0 : ComponentDescriptor) (path : String)
    (pre suf : List Doc) (r : ResourceOptions)
    (hpre : ∀ d ∈ pre, cleanDoc cd0 d = true) (hpath : path ≠ "")
    (hin : r.input.isSome = true) (hacc : r.resource.access.isSome = true) :
    generateResourcesFromReader cd0 (pre ++ Doc.tmpl r :: suf) =
      .error (.conflictingResourceSource r.resource.name) ∧
    optionsRun blobAdd vr vd archivePath cd0 path (some (pre ++ Doc.tmpl r :: suf))
        ⟨false, 0⟩ [] =
      .error (.conflictingResourceSource r.resource.name, ⟨cd0, []⟩) := by
  have hdec := decode_stops_at_conflict cd0 pre r suf hpre hin hacc
  refine ⟨hdec, ?_⟩
  unfold optionsRun
  rw [generateResources_file_only cd0 path _ hpath, hdec]

/-- Witness for C6: a conflicting template as the only document. -/
theorem C6_witness :
    generateResourcesFromReader cdEx [Doc.tmpl conflictEx] =
      .error (.conflictingResourceSource conflictEx.resource.name) ∧
    optionsRun blobAddEx vTrue vdTrue "arch" cdEx "r.yaml"
        (some [Doc.tmpl conflictEx]) ⟨false, 0⟩ [] =
      .error (.conflictingResourceSource conflictEx.resource.name, ⟨cdEx, []⟩) := by
  have h := C6_conflicting_resource_rejected blobAddEx vTrue vdTrue "arch" cdEx "r.yaml"
    [] [] conflictEx (by simp) (by decide) rfl rfl
  simpa using h

/-- **C7** — For every invocation given both an explicit template file
path and piped standard input, the file's documents are decoded and
processed first and the piped documents after them, in that fixed order;
piped input is consulted only when it is non-empty (detected via a
named-pipe or byte-count check), and an invocation with a file path and
no piped input processes only the file's documents. -/
theorem C7_input_origins_order (cd : ComponentDescriptor) (path : String)
    (fdocs sdocs : List Doc) (stdin : StdinInfo) (frs srs : List ResourceOptions)
    (hpath : path ≠ "")
    (hf : generateResourcesFromReader cd fdocs = .ok frs)
    (hs : generateResourcesFromReader cd sdocs = .ok srs) :
    generateResources cd path (some fdocs) stdin sdocs =
      (if stdin.isNamedPipe ∨ stdin.size ≠ 0 then .ok (frs ++ srs) else .ok frs) := by
  simp only [generateResources]
  rw [if_pos hpath]
  simp only [hf]
  by_cases hc : stdin.isNamedPipe ∨ stdin.size ≠ 0
  · rw [if_pos hc, if_pos hc]
    simp only [hs]
  · rw [if_neg hc, if_neg hc]

/-- Witness for C7: a file document followed by a piped document on a
named-pipe stdin. -/
theorem C7_witness :
    generateResources cdEx "r.yaml" (some [Doc.tmpl tmplEx]) ⟨true, 0⟩
        [Doc.tmpl localTmpl] =
      (if (StdinInfo.mk true 0).isNamedPipe ∨ (StdinInfo.mk true 0).size ≠ 0 then
        .ok ([defaultFill cdEx tmplEx] ++ [defaultFill cdEx localTmpl])
      else .ok [defaultFill cdEx tmplEx]) :=
  C7_input_origins_order cdEx "r.yaml" [Doc.tmpl tmplEx] [Doc.tmpl localTmpl]
    ⟨true, 0⟩ [defaultFill cdEx tmplEx] [defaultFill cdEx localTmpl]
    (by decide) (by decide) (by decide)

/-- **C8** (counterexample) — the decode error returned for a malformed
document is the same value whether the document is at ordinal 0 or
ordinal 1 of the stream, so no function can read the ordinal index of the
offending document off the returned error: the claim that the error
carries the ordinal index is false. -/
theorem C8_counterexample :
    generateResourcesFromReader cdEx [Doc.malformed "boom"] =
      .error (.malformedTemplate "boom") ∧
    generateResourcesFromReader cdEx [Doc.tmpl tmplEx, Doc.malformed "boom"] =
      .error (.malformedTemplate "boom") ∧
    ¬∃ ordinalOf : AddError → Nat,
        ∀ (pre suf : List Doc) (msg : String) (e : AddError),
          (∀ d ∈ pre, cleanDoc cdEx d = true) →
          generateResourcesFromReader cdEx (pre ++ Doc.malformed msg :: suf) = .error e →
          ordinalOf e = pre.length := by
  refine ⟨by decide, by decide, ?_⟩
  rintro ⟨f, hf⟩
  have h0 : f (.malformedTemplate "boom") = 0 :=
    hf [] [] "boom" _ (by simp) (by decide)
  have h1 : f (.malformedTemplate "boom") = 1 :=
    hf [Doc.tmpl tmplEx] [] "boom" _ (by decide) (by decide)
  omega

/-- **C8** (amended) — the decoder yields one default-filled template per
document in stream order, terminates cleanly at end-of-stream with an
empty result, and stops at the first malformed document with a decode
error that wraps the underlying message (carrying no document ordinal);
no document after the malformed one is processed. -/
theorem C8_amended_decoder (cd : ComponentDescriptor) :
    generateResourcesFromReader cd [] = .ok [] ∧
    (∀ ts : List ResourceOptions, (∀ t ∈ ts, cleanDoc cd (Doc.tmpl t) = true) →
        generateResourcesFromReader cd (ts.map Doc.tmpl) = .ok (ts.map (defaultFill cd))) ∧
    (∀ (pre : List Doc) (msg : String) (suf : List Doc),
        (∀ d ∈ pre, cleanDoc cd d = true) →
        generateResourcesFromReader cd (pre ++ Doc.malformed msg :: suf) =
          .error (.malformedTemplate msg)) :=
  ⟨rfl, decode_templates cd, decode_stops_at_malformed cd⟩

/-- Witness for C8 at concrete streams. -/
theorem C8_witness :
    generateResourcesFromReader cdEx ([tmplEx].map Doc.tmpl) =
      .ok ([tmplEx].map (defaultFill cdEx)) ∧
    generateResourcesFromReader cdEx
        ([Doc.tmpl tmplEx] ++ Doc.malformed "boom" :: [Doc.tmpl localTmpl]) =
      .error (.malformedTemplate "boom") :=
  ⟨(C8_amended_decoder cdEx).2.1 [tmplEx] (by decide),
   (C8_amended_decoder cdEx).2.2 [Doc.tmpl tmplEx] "boom" [Doc.tmpl localTmpl] (by decide)⟩

theorem lookup_setFile (files : List (String × ComponentDescriptor)) (p : String)
    (c : ComponentDescriptor) : (setFile files p c).lookup p = some c := by
  induction files with
  | nil => simp [setFile, List.lookup]
  | cons qd rest ih =>
      obtain ⟨q, d⟩ := qd
      by_cases h : q = p
      · simp [setFile, h, List.lookup]
      · have h2 : (p == q) = false := by
          rw [beq_eq_false_iff_ne]
          exact Ne.symm h
        simp [setFile, h, List.lookup, ih, h2]

/-- Unfolding of one merge-branch step of the run loop when the merge
succeeds. -/
theorem runResources_cons_merge_ok
    (blobAdd : ComponentDescriptor → ResourceOptions → Except AddError ComponentDescriptor)
    (vr : Resource → Bool) (vd : ComponentDescriptor → Bool) (descPath : String)
    (cd : ComponentDescriptor) (tr : List FsOp) (r : ResourceOptions)
    (rest : List ResourceOptions) (rs' : List Resource) (hin : r.input = none)
    (hup : upsertResource vr cd.resources r.resource = .ok rs') :
    runResources blobAdd vr vd descPath ⟨cd, tr⟩ (r :: rest) =
      (if vd { cd with resources := rs' } then
        runResources blobAdd vr vd descPath
          (RunState.mk { cd with resources := rs' }
            (tr ++ [FsOp.writeFile descPath { cd with resources := rs' }])) rest
      else Except.error (AddError.descriptorValidationFailed,
        RunState.mk { cd with resources := rs' } tr)) := by
  simp only [runResources, hin, hup]

/-- Unfolding of one merge-branch step of the run loop when the merge
fails. -/
theorem runResources_cons_merge_err
    (blobAdd : ComponentDescriptor → ResourceOptions → Except AddError ComponentDescriptor)
    (vr : Resource → Bool) (vd : ComponentDescriptor → Bool) (descPath : String)
    (cd : ComponentDescriptor) (tr : List FsOp) (r : ResourceOptions)
    (rest : List ResourceOptions) (e : AddError) (hin : r.input = none)
    (hup : upsertResource vr cd.resources r.resource = .error e) :
    runResources blobAdd vr vd descPath ⟨cd, tr⟩ (r :: rest) =
      Except.error (e, RunState.mk cd tr) := by
  simp only [runResources, hin, hup]

/-- Unfolding of one blob-branch step of the run loop when the blob add
succeeds. -/
theorem runResources_cons_blob_ok
    (blobAdd : ComponentDescriptor → ResourceOptions → Except AddError ComponentDescriptor)
    (vr : Resource → Bool) (vd : ComponentDescriptor → Bool) (descPath : String)
    (cd : ComponentDescriptor) (tr : List FsOp) (r : ResourceOptions)
    (rest : List ResourceOptions) (b : BlobInput) (cd' : ComponentDescriptor)
    (hin : r.input = some b) (hb : blobAdd cd r = .ok cd') :
    runResources blobAdd vr vd descPath ⟨cd, tr⟩ (r :: rest) =
      (if vd cd' then
        runResources blobAdd vr vd descPath
          (RunState.mk cd' (tr ++ [FsOp.writeFile descPath cd'])) rest
      else Except.error (AddError.descriptorValidationFailed, RunState.mk cd' tr)) := by
  simp only [runResources, hin, hb]

/-- Unfolding of one blob-branch step of the run loop when the blob add
fails. -/
theorem runResources_cons_blob_err
    (blobAdd : ComponentDescriptor → ResourceOptions → Except AddError ComponentDescriptor)
    (vr : Resource → Bool) (vd : ComponentDescriptor → Bool) (descPath : String)
    (cd : ComponentDescriptor) (tr : List FsOp) (r : ResourceOptions)
    (rest : List ResourceOptions) (b : BlobInput) (e : AddError)
    (hin : r.input = some b) (hb : blobAdd cd r = .error e) :
    runResources blobAdd vr vd descPath ⟨cd, tr⟩ (r :: rest) =
      Except.error (e, RunState.mk cd tr) := by
  simp only [runResources, hin, hb]

/-- **C1** (amended) — When document 1 of a two-document stream decodes
and validates but document 2, having decoded, fails entry validation at
the merge step, the run returns document 2's validation error (which
carries no document ordinal), the descriptor file has been overwritten
exactly once with document 1's merged descriptor — which contains
document 1's entry and is not rolled back; when document 2 instead fails
during decoding (e.g. it is malformed), the operation fails before any
document is merged or persisted, so document 1's entry is not persisted
either. -/
theorem C1_amended_partial_failure
    (blobAdd : ComponentDescriptor → ResourceOptions → Except AddError ComponentDescriptor)
    (vr : Resource → Bool) (vd : ComponentDescriptor → Bool)
    (archivePath : String) (cd0 : ComponentDescriptor) (path : String)
    (d1 d2 : ResourceOptions) (rs1 : List Resource) (e2 : AddError)
    (hpath : path ≠ "") (h1in : d1.input = none) (h2in : d2.input = none)
    (hup1 : upsertResource vr cd0.resources (defaultFill cd0 d1).resource = .ok rs1)
    (hvd1 : vd { cd0 with resources := rs1 } = true)
    (hup2 : upsertResource vr rs1 (defaultFill cd0 d2).resource = .error e2) :
    (optionsRun blobAdd vr vd archivePath cd0 path (some [Doc.tmpl d1, Doc.tmpl d2])
        ⟨false, 0⟩ [] =
      .error (e2, ⟨{ cd0 with resources := rs1 },
        [FsOp.writeFile (descriptorFilePath archivePath)
          { cd0 with resources := rs1 }]⟩)) ∧
    (∃ m ∈ rs1, m.identity = (defaultFill cd0 d1).resource.identity) ∧
    (∀ files : List (String × ComponentDescriptor),
        (replayFs files [FsOp.writeFile (descriptorFilePath archivePath)
            { cd0 with resources := rs1 }]).lookup (descriptorFilePath archivePath) =
          some { cd0 with resources := rs1 }) ∧
    (∀ (msg : String) (suf : List Doc),
        optionsRun blobAdd vr vd archivePath cd0 path
            (some (Doc.tmpl d1 :: Doc.malformed msg :: suf)) ⟨false, 0⟩ [] =
          .error (.malformedTemplate msg, ⟨cd0, []⟩)) := by
  have hclean1 : cleanDoc cd0 (Doc.tmpl d1) = true := by
    simp [cleanDoc, defaultFill_input, h1in]
  have hclean2 : cleanDoc cd0 (Doc.tmpl d2) = true := by
    simp [cleanDoc, defaultFill_input, h2in]
  have hf1 : (defaultFill cd0 d1).input = none := by rw [defaultFill_input]; exact h1in
  have hf2 : (defaultFill cd0 d2).input = none := by rw [defaultFill_input]; exact h2in
  refine ⟨?_, ?_, ?_, ?_⟩
  · have hdec : generateResourcesFromReader cd0 [Doc.tmpl d1, Doc.tmpl d2] =
        .ok [defaultFill cd0 d1, defaultFill cd0 d2] := by
      have h := decode_templates cd0 [d1, d2] (by
        intro t ht
        rcases List.mem_cons.mp ht with rfl | ht2
        · exact hclean1
        · rcases List.mem_singleton.mp ht2 with rfl
          exact hclean2)
      simpa using h
    unfold optionsRun
    rw [generateResources_file_only cd0 path _ hpath]
    simp only [hdec]
    rw [runResources_cons_merge_ok blobAdd vr vd (descriptorFilePath archivePath) cd0 []
        (defaultFill cd0 d1) [defaultFill cd0 d2] rs1 hf1 hup1,
      if_pos hvd1,
      runResources_cons_merge_err blobAdd vr vd (descriptorFilePath archivePath)
        { cd0 with resources := rs1 }
        ([] ++ [FsOp.writeFile (descriptorFilePath archivePath)
          { cd0 with resources := rs1 }])
        (defaultFill cd0 d2) [] e2 hf2 hup2]
    simp only [List.nil_append]
  · exact upsertResource_result_mem vr cd0.resources rs1 (defaultFill cd0 d1).resource hup1
  · intro files
    exact lookup_setFile files _ _
  · intro msg suf
    have hdec := decode_stops_at_malformed cd0 [Doc.tmpl d1] msg suf (by
      intro d hd
      rcases List.mem_singleton.mp hd with rfl
      exact hclean1)
    rw [List.singleton_append] at hdec
    unfold optionsRun
    rw [generateResources_file_only cd0 path _ hpath]
    simp only [hdec]

/-- **C1** (counterexample) — a two-document stream whose document 1 is a
valid entry and whose document 2 is an invalid entry (it sets both
`access` and `input`, violating the §3 invariant): the add operation
returns an error for document 2, but with an empty file-system trace —
so the descriptor file still holds the original descriptor, which does
not contain document 1's merged entry, refuting the claim as stated. -/
theorem C1_counterexample :
    optionsRun blobAddEx vTrue vdTrue "arch" cdEx "r.yaml"
        (some [Doc.tmpl tmplEx, Doc.tmpl conflictEx]) ⟨false, 0⟩ [] =
      .error (.conflictingResourceSource conflictEx.resource.name, ⟨cdEx, []⟩) ∧
    (replayFs [(descriptorFilePath "arch", cdEx)] []).lookup (descriptorFilePath "arch") =
      some cdEx ∧
    ¬∃ m ∈ cdEx.resources, m.identity = (defaultFill cdEx tmplEx).resource.identity := by
  refine ⟨by decide, by decide, ?_⟩
  rintro ⟨m, hm, _⟩
  simp [cdEx] at hm

/-- Witness for the amended C1 at a concrete stream: document 1 merges
and persists; document 2 fails entry validation. -/
theorem C1_witness :
    (optionsRun blobAddEx vrNotBad vdTrue "arch" cdEx "r.yaml"
        (some [Doc.tmpl tmplEx, Doc.tmpl badTmpl]) ⟨false, 0⟩ [] =
      Except.error (AddError.resourceValidationFailed,
        ⟨{ cdEx with resources := [resEx] },
        [FsOp.writeFile (descriptorFilePath "arch")
          { cdEx with resources := [resEx] }]⟩)) ∧
    (∃ m ∈ [resEx], m.identity = (defaultFill cdEx tmplEx).resource.identity) ∧
    (∀ files : List (String × ComponentDescriptor),
        (replayFs files [FsOp.writeFile (descriptorFilePath "arch")
            { cdEx with resources := [resEx] }]).lookup (descriptorFilePath "arch") =
          some { cdEx with resources := [resEx] }) ∧
    (∀ (msg : String) (suf : List Doc),
        optionsRun blobAddEx vrNotBad vdTrue "arch" cdEx "r.yaml"
            (some (Doc.tmpl tmplEx :: Doc.malformed msg :: suf)) ⟨false, 0⟩ [] =
          Except.error (AddError.malformedTemplate msg, ⟨cdEx, []⟩)) :=
  C1_amended_partial_failure blobAddEx vrNotBad vdTrue "arch" cdEx "r.yaml"
    tmplEx badTmpl [resEx] AddError.resourceValidationFailed
    (by decide) rfl rfl (by decide) rfl (by decide)

/-- **C2** (counterexample) — a concrete successful run performing one
persist: its trace is a single direct `WriteFile` of the new descriptor
to the descriptor file path, with no temporary location and no rename —
refuting the write-to-temporary-then-rename claim. -/
theorem C2_counterexample :
    optionsRun blobAddEx vTrue vdTrue "arch" cdEx "r.yaml" (some [Doc.tmpl tmplEx])
        ⟨false, 0⟩ [] =
      .ok ⟨cdEx1, [FsOp.writeFile (descriptorFilePath "arch") cdEx1]⟩ ∧
    ¬TempRenamePersist (descriptorFilePath "arch")
        [FsOp.writeFile (descriptorFilePath "arch") cdEx1] := by
  refine ⟨by decide, ?_⟩
  rintro ⟨hA, _⟩
  exact hA (FsOp.writeFile (descriptorFilePath "arch") cdEx1)
    (List.mem_singleton_self _) cdEx1 rfl

/-- The trace property of the run loop: starting from a trace of direct
descriptor-file writes, every reachable trace (on success or error)
consists solely of direct descriptor-file writes. -/
theorem runResources_trace_shape
    (blobAdd : ComponentDescriptor → ResourceOptions → Except AddError ComponentDescriptor)
    (vr : Resource → Bool) (vd : ComponentDescriptor → Bool) (descPath : String) :
    ∀ (rs : List ResourceOptions) (st : RunState),
      (∀ op ∈ st.trace, ∃ c, op = FsOp.writeFile descPath c) →
      (∀ st', runResources blobAdd vr vd descPath st rs = .ok st' →
          ∀ op ∈ st'.trace, ∃ c, op = FsOp.writeFile descPath c) ∧
      (∀ e st', runResources blobAdd vr vd descPath st rs = .error (e, st') →
          ∀ op ∈ st'.trace, ∃ c, op = FsOp.writeFile descPath c) := by
  intro rs
  induction rs with
  | nil =>
      intro st hst
      constructor
      · intro st' h
        simp only [runResources] at h
        cases h
        exact hst
      · intro e st' h
        simp only [runResources] at h
        cases h
  | cons r rest ih =>
      rintro ⟨cd, tr⟩ hst
      have htr : ∀ op ∈ tr, ∃ c, op = FsOp.writeFile descPath c := hst
      have hext : ∀ cd' : ComponentDescriptor,
          ∀ op ∈ tr ++ [FsOp.writeFile descPath cd'],
            ∃ c, op = FsOp.writeFile descPath c := by
        intro cd' op hop
        rcases List.mem_append.mp hop with hold | hnew
        · exact htr op hold
        · rcases List.mem_singleton.mp hnew with rfl
          exact ⟨cd', rfl⟩
      cases hin : r.input with
      | some b =>
          cases hb : blobAdd cd r with
          | error e =>
              rw [runResources_cons_blob_err blobAdd vr vd descPath cd tr r rest b e hin hb]
              constructor
              · intro st' h
                cases h
              · intro e2 st' h
                cases h
                exact htr
          | ok cd' =>
              rw [runResources_cons_blob_ok blobAdd vr vd descPath cd tr r rest b cd' hin hb]
              by_cases hvd : vd cd' = true
              · rw [if_pos hvd]
                exact ih (RunState.mk cd' (tr ++ [FsOp.writeFile descPath cd'])) (hext cd')
              · rw [if_neg hvd]
                constructor
                · intro st' h
                  cases h
                · intro e st' h
                  cases h
                  exact htr
      | none =>
          cases hup : upsertResource vr cd.resources r.resource with
          | error e =>
              rw [runResources_cons_merge_err blobAdd vr vd descPath cd tr r rest e hin hup]
              constructor
              · intro st' h
                cases h
              · intro e2 st' h
                cases h
                exact htr
          | ok rs' =>
              rw [runResources_cons_merge_ok blobAdd vr vd descPath cd tr r rest rs' hin hup]
              by_cases hvd : vd { cd with resources := rs' } = true
              · rw [if_pos hvd]
                exact ih (RunState.mk { cd with resources := rs' }
                    (tr ++ [FsOp.writeFile descPath { cd with resources := rs' }]))
                  (hext { cd with resources := rs' })
              · rw [if_neg hvd]
                constructor
                · intro st' h
                  cases h
                · intro e st' h
                  cases h
                  exact htr

/-- The trace property of the embedded init. -/
theorem initRun_trace_shape (vd : ComponentDescriptor → Bool) (o : InitOptions)
    (fs : InitFs) :
    ∀ (fs' : InitFs) (ops : List FsOp), initRun vd o fs = .ok (fs', ops) →
      ∀ op ∈ ops, op = FsOp.mkdirAll o.componentArchivePath ∨
        ∃ c, op = FsOp.writeFile (descriptorFilePath o.componentArchivePath) c := by
  intro fs' ops h op hop
  simp only [initRun] at h
  cases hstat : fs.stat <;> simp only [hstat] at h
  case nonDir => cases h
  case absent =>
      split at h
      · cases h
        rcases List.mem_append.mp hop with hop1 | hop2
        · rcases List.mem_singleton.mp hop1 with rfl
          exact Or.inl rfl
        · rcases List.mem_singleton.mp hop2 with rfl
          exact Or.inr ⟨initialDescriptor o, rfl⟩
      · cases h
  case dir =>
      split at h
      · cases h
        rcases List.mem_singleton.mp (by simpa using hop) with rfl
        exact Or.inr ⟨initialDescriptor o, rfl⟩
      · cases h

/-- **C2** (amended) — descriptor persistence is a direct in-place
overwrite: every file-system operation in any trace reachable by the add
operation is a `WriteFile` of a full serialized descriptor to the
descriptor file path (one per successfully processed document), and the
init operation performs at most a `MkdirAll` of the archive path plus one
such direct write; no temporary file and no rename is ever used, so the
temp-write-then-atomic-rename discipline claimed by the specification is
absent. -/
theorem C2_amended_direct_write :
    (∀ (blobAdd : ComponentDescriptor → ResourceOptions → Except AddError ComponentDescriptor)
        (vr : Resource → Bool) (vd : ComponentDescriptor → Bool)
        (archivePath : String) (cd0 : ComponentDescriptor) (path : String)
        (fileDocs : Option (List Doc)) (stdin : StdinInfo) (stdinDocs : List Doc)
        (st' : RunState),
        (optionsRun blobAdd vr vd archivePath cd0 path fileDocs stdin stdinDocs = .ok st' ∨
          ∃ e, optionsRun blobAdd vr vd archivePath cd0 path fileDocs stdin stdinDocs =
            .error (e, st')) →
        ∀ op ∈ st'.trace, ∃ c, op = FsOp.writeFile (descriptorFilePath archivePath) c) ∧
    (∀ (vd : ComponentDescriptor → Bool) (o : InitOptions) (fs fs' : InitFs)
        (ops : List FsOp), initRun vd o fs = .ok (fs', ops) →
        ∀ op ∈ ops, op = FsOp.mkdirAll o.componentArchivePath ∨
          ∃ c, op = FsOp.writeFile (descriptorFilePath o.componentArchivePath) c) := by
  constructor
  · intro blobAdd vr vd archivePath cd0 path fileDocs stdin stdinDocs st' hrun
    have hempty : ∀ op ∈ ([] : List FsOp), ∃ c,
        op = FsOp.writeFile (descriptorFilePath archivePath) c := by
      intro op hop
      cases hop
    have hshape := runResources_trace_shape blobAdd vr vd (descriptorFilePath archivePath)
    rcases hrun with hok | ⟨e, herr⟩
    · unfold optionsRun at hok
      cases hgen : generateResources cd0 path fileDocs stdin stdinDocs with
      | error e0 => rw [hgen] at hok; cases hok
      | ok resources =>
          rw [hgen] at hok
          exact (hshape resources ⟨cd0, []⟩ hempty).1 st' hok
    · unfold optionsRun at herr
      cases hgen : generateResources cd0 path fileDocs stdin stdinDocs with
      | error e0 =>
          rw [hgen] at herr
          cases herr
          exact hempty
      | ok resources =>
          rw [hgen] at herr
          exact (hshape resources ⟨cd0, []⟩ hempty).2 e st' herr
  · exact fun vd o fs => initRun_trace_shape vd o fs

/-- Witness for the amended C2 at the concrete single-document run. -/
theorem C2_witness :
    ∃ c, FsOp.writeFile (descriptorFilePath "arch") cdEx1 =
      FsOp.writeFile (descriptorFilePath "arch") c :=
  C2_amended_direct_write.1 blobAddEx vTrue vdTrue "arch" cdEx "r.yaml"
    (some [Doc.tmpl tmplEx]) ⟨false, 0⟩ []
    ⟨cdEx1, [FsOp.writeFile (descriptorFilePath "arch") cdEx1]⟩
    (Or.inl (by decide))
    (FsOp.writeFile (descriptorFilePath "arch") cdEx1) (List.mem_singleton_self _)

/-- **C10** — For every archive path that is an existing directory
already containing a component descriptor file, init succeeds and
silently overwrites the existing descriptor file with a freshly built
descriptor (given name, version, internal provider, given registry
contexts, empty collections); init never fails merely because a
descriptor is already present at that path. -/
theorem C10_init_overwrites_descriptor (vd : ComponentDescriptor → Bool)
    (o : InitOptions) (files : List (String × ComponentDescriptor))
    (hvd : vd (initialDescriptor o) = true) :
    initRun vd o ⟨.dir, files⟩ =
      .ok (⟨.dir, setFile files (descriptorFilePath o.componentArchivePath)
          (initialDescriptor o)⟩,
        [FsOp.writeFile (descriptorFilePath o.componentArchivePath)
          (initialDescriptor o)]) ∧
    (setFile files (descriptorFilePath o.componentArchivePath)
        (initialDescriptor o)).lookup (descriptorFilePath o.componentArchivePath) =
      some (initialDescriptor o) := by
  constructor
  · unfold initRun
    simp [hvd]
  · exact lookup_setFile files _ _

/-- Witness for C10: the archive directory already holds a descriptor
file, which init silently replaces with the freshly built one. -/
theorem C10_witness :
    initRun vdTrue oEx ⟨.dir, [(descriptorFilePath "arch", cdEx)]⟩ =
      .ok (⟨.dir, setFile [(descriptorFilePath "arch", cdEx)]
          (descriptorFilePath oEx.componentArchivePath) (initialDescriptor oEx)⟩,
        [FsOp.writeFile (descriptorFilePath oEx.componentArchivePath)
          (initialDescriptor oEx)]) ∧
    (setFile [(descriptorFilePath "arch", cdEx)]
        (descriptorFilePath oEx.componentArchivePath)
        (initialDescriptor oEx)).lookup (descriptorFilePath oEx.componentArchivePath) =
      some (initialDescriptor oEx) :=
  C10_init_overwrites_descriptor vdTrue oEx [(descriptorFilePath "arch", cdEx)] rfl

end ComponentCli
